import Mathlib

/-!
Verification of the pthash-rs C++ binding surface.

Shallow embedding of the three C++ headers under `src/`:
* `workarounds.hpp` — the SeedAccess protocol (`get_seed_visitor`,
  `set_seed_visitor`, `get_seed`, `set_seed`);
* `cpp-utils.hpp` — the generated configuration accessors and `valid_seed`;
* `concrete.hpp` — the concrete function/builder type instantiations.

The PTHash construction core (pilot search, encoders, query) lives in the
external `pthash.hpp` library, so the properties about it are settled
against a model written from the specification (`PhfModel` below).
-/

namespace PthashRs

namespace SeedAccess

/-- A field presented to a visitor during a `visit` traversal, as seen by
the two visitors of `workarounds.hpp`: either a `uint64_t` field (matching
the non-template `visit(uint64_t&)` overload) or a field of any other type
(matching the template `visit(T&)` overload).  The traversal of a structure
is modelled as the list of fields it presents, in visitation order. -/
inductive Field where
  | u64 (v : Nat)
  | other (data : Nat)
deriving DecidableEq, Repr

/-- State of `get_seed_visitor`: whether the seed was captured, and its
value.  The C++ `seed` member is uninitialized before `got_seed` is set;
it is modelled as starting at 0 and is only read under `got_seed = true`. -/
structure GetSeedVisitor where
  got_seed : Bool
  seed : Nat
deriving DecidableEq, Repr

/-- One `visit` call of `get_seed_visitor` (workarounds.hpp lines 18-32):
a `uint64_t` field records the value when the seed was not yet captured,
any other field throws when the seed was not yet captured. -/
def getVisit (st : GetSeedVisitor) : Field → Except String GetSeedVisitor
  | .u64 v => if st.got_seed then .ok st else .ok ⟨true, v⟩
  | .other _ => if st.got_seed then .ok st
                else .error "seed was not the first visited field"

/-- A full traversal `f.visit(visitor)`: the visitor is applied to every
field in order; a thrown exception aborts the traversal. -/
def getVisitAll : GetSeedVisitor → List Field → Except String GetSeedVisitor
  | st, [] => .ok st
  | st, f :: fs =>
    match getVisit st f with
    | .error e => .error e
    | .ok st' => getVisitAll st' fs

/-- `get_seed` (workarounds.hpp lines 35-44): run a fresh
`get_seed_visitor` over the function's fields; if the traversal threw, the
exception propagates; if the seed was never captured, throw
"Could not get seed from function"; otherwise return the captured seed. -/
def get_seed (fs : List Field) : Except String Nat :=
  match getVisitAll ⟨false, 0⟩ fs with
  | .error e => .error e
  | .ok st => if st.got_seed then .ok st.seed
              else .error "Could not get seed from function"

/-- State of `set_seed_visitor`: whether the seed was written, and the
value to write. -/
structure SetSeedVisitor where
  seed_written : Bool
  seed : Nat
deriving DecidableEq, Repr

/-- One `visit` call of `set_seed_visitor` (workarounds.hpp lines 55-69):
a `uint64_t` field is overwritten with the seed when not yet written, any
other field throws when the seed was not yet written.  Returns the new
visitor state and the (possibly overwritten) field. -/
def setVisit (st : SetSeedVisitor) : Field → Except String (SetSeedVisitor × Field)
  | .u64 v => if st.seed_written then .ok (st, .u64 v)
              else .ok (⟨true, st.seed⟩, .u64 st.seed)
  | .other d => if st.seed_written then .ok (st, .other d)
                else .error "seed was not the first visited field"

/-- A full traversal `builder.visit(visitor)` for the setting visitor:
every field is visited in order and replaced by what the visitor leaves in
it; a thrown exception aborts the traversal (no field had been written yet
in that case, since the write happens on the first `uint64_t` field and
the throw only fires before any write). -/
def setVisitAll : SetSeedVisitor → List Field → Except String (SetSeedVisitor × List Field)
  | st, [] => .ok (st, [])
  | st, f :: fs =>
    match setVisit st f with
    | .error e => .error e
    | .ok (st', f') =>
      match setVisitAll st' fs with
      | .error e => .error e
      | .ok (st'', fs') => .ok (st'', f' :: fs')

/-- `set_seed` (workarounds.hpp lines 72-82): run a `set_seed_visitor`
carrying `s` over the builder's fields; propagate a thrown exception; if
the seed was never written, throw "Could not set function's seed";
otherwise return the updated fields. -/
def set_seed (fs : List Field) (s : Nat) : Except String (List Field) :=
  match setVisitAll ⟨false, s⟩ fs with
  | .error e => .error e
  | .ok (st, fs') => if st.seed_written then .ok fs'
                     else .error "Could not set function's seed"

/-- Once the getting visitor has captured the seed, visiting further
fields never throws and never changes the state. -/
theorem getVisitAll_done (s : Nat) (fs : List Field) :
    getVisitAll ⟨true, s⟩ fs = .ok ⟨true, s⟩ := by
  induction fs with
  | nil => rfl
  | cons f fs ih => cases f <;> simpa [getVisitAll, getVisit]

/-- Once the setting visitor has written the seed, visiting further fields
never throws and leaves every field unchanged. -/
theorem setVisitAll_done (s : Nat) (fs : List Field) :
    setVisitAll ⟨true, s⟩ fs = .ok (⟨true, s⟩, fs) := by
  induction fs with
  | nil => rfl
  | cons f fs ih => cases f <;> simp [setVisitAll, setVisit, ih]

/-- `get_seed` on a field list whose first field is a `uint64_t` returns
exactly that field's value, whatever follows. -/
theorem get_seed_cons_u64 (v : Nat) (rest : List Field) :
    get_seed (.u64 v :: rest) = .ok v := by
  simp [get_seed, getVisitAll, getVisit, getVisitAll_done]

/-- `set_seed` on a field list whose first field is a `uint64_t`
overwrites exactly that field and leaves the rest unchanged. -/
theorem set_seed_cons_u64 (v s : Nat) (rest : List Field) :
    set_seed (.u64 v :: rest) s = .ok (.u64 s :: rest) := by
  simp [set_seed, setVisitAll, setVisit, setVisitAll_done]

/-- C1: if, during the SeedAccess handshake (`get_seed` or `set_seed`),
the first visited field is not the seed (a `uint64_t` field), the
operation fails loudly with the SeedProtocolError exception
"seed was not the first visited field" instead of silently returning or
writing; this holds for every visited structure whose first field is not
the seed. -/
theorem C1_seed_not_first_fails_loudly (d : Nat) (rest : List Field) (s : Nat) :
    get_seed (.other d :: rest) = .error "seed was not the first visited field"
    ∧ set_seed (.other d :: rest) s = .error "seed was not the first visited field" := by
  constructor
  · simp [get_seed, getVisitAll, getVisit]
  · simp [set_seed, setVisitAll, setVisit]

/-- C2: for every built function whose visit presents the seed as its
first field, `get_seed` returns exactly the value of that first field,
independently of everything that follows it (in particular of the encoder
the function uses). -/
theorem C2_get_seed_reads_first_field (v : Nat) (rest : List Field) :
    get_seed (.u64 v :: rest) = .ok v
    ∧ ∀ rest' : List Field, get_seed (.u64 v :: rest) = get_seed (.u64 v :: rest') := by
  refine ⟨get_seed_cons_u64 v rest, fun rest' => ?_⟩
  rw [get_seed_cons_u64, get_seed_cons_u64]

/-- C3: seed round-trip — for every builder/function whose visit presents
the seed as its first field and every seed value `s`, `set_seed` followed
by `get_seed` returns `s`. -/
theorem C3_seed_round_trip (v : Nat) (rest : List Field) (s : Nat) :
    Except.bind (set_seed (.u64 v :: rest) s) get_seed = .ok s := by
  rw [set_seed_cons_u64]
  simpa [Except.bind] using get_seed_cons_u64 s rest

/-- C5: the SeedAccess protocol raises its error exactly when the visit
does not present a `uint64_t` field first (a non-`uint64` field comes
before any `uint64` field, or no field is visited at all); the first
`uint64` field presented is unconditionally accepted as the seed, so
`get_seed`/`set_seed` read/overwrite it whatever field it actually is. -/
theorem C5_error_iff_first_field_not_u64 (fs : List Field) (s : Nat) :
    ((∃ e, get_seed fs = .error e) ↔ ¬ ∃ v rest, fs = .u64 v :: rest)
    ∧ ((∃ e, set_seed fs s = .error e) ↔ ¬ ∃ v rest, fs = .u64 v :: rest)
    ∧ ∀ v rest, get_seed (.u64 v :: rest) = .ok v
        ∧ set_seed (.u64 v :: rest) s = .ok (.u64 s :: rest) := by
  refine ⟨?_, ?_, fun v rest => ⟨get_seed_cons_u64 v rest, set_seed_cons_u64 v s rest⟩⟩
  · match fs with
    | [] => simp [get_seed, getVisitAll]
    | .u64 v :: rest => simp [get_seed_cons_u64]
    | .other d :: rest =>
      simp only [get_seed, getVisitAll, getVisit, Bool.false_eq_true, if_false]
      constructor
      · rintro - ⟨v, rest', h⟩
        exact Field.noConfusion (List.cons.injEq .. ▸ h).1
      · exact fun _ => ⟨_, rfl⟩
  · match fs with
    | [] => simp [set_seed, setVisitAll]
    | .u64 v :: rest => simp [set_seed_cons_u64]
    | .other d :: rest =>
      simp only [set_seed, setVisitAll, setVisit, Bool.false_eq_true, if_false]
      constructor
      · rintro - ⟨v, rest', h⟩
        exact Field.noConfusion (List.cons.injEq .. ▸ h).1
      · exact fun _ => ⟨_, rfl⟩

/-- C9: frame effect of `set_seed` — whenever it succeeds, it has
overwritten exactly the first visited field (which was a `uint64_t`
field) with the new seed, and every field after the first is returned
unchanged. -/
theorem C9_set_seed_frame (s : Nat) (fs fs' : List Field)
    (h : set_seed fs s = .ok fs') :
    ∃ v rest, fs = .u64 v :: rest ∧ fs' = .u64 s :: rest := by
  match fs with
  | [] => simp [set_seed, setVisitAll] at h
  | .other d :: rest => simp [set_seed, setVisitAll, setVisit] at h
  | .u64 v :: rest =>
    rw [set_seed_cons_u64] at h
    exact ⟨v, rest, rfl, (Except.ok.injEq .. ▸ h).symm⟩

/-- Witness for C9 at a concrete builder: a two-field structure with seed
value 1 first, overwritten with 9. -/
theorem C9_set_seed_frame_witness :
    ∃ v rest, ([Field.u64 1, Field.other 5] : List Field) = .u64 v :: rest
      ∧ ([Field.u64 9, Field.other 5] : List Field) = .u64 9 :: rest :=
  C9_set_seed_frame 9 [Field.u64 1, Field.other 5] [Field.u64 9, Field.other 5] rfl

end SeedAccess

/-- Modelled from the spec: the Configuration record of §3,
`{c, alpha, num_partitions, num_threads, seed, ram, tmp_dir, num_buckets,
minimal_output, verbose_output}`.  The C++ class itself
(`pthash::build_configuration`) lives in the external pthash library, not
under `src/`; only its generated accessors (`cpp-utils.hpp` lines 90-101)
are part of this repository.  The two floating-point fields `c` and
`alpha` are given an abstract type `F`, since the accessors only copy
them. -/
structure build_configuration (F : Type) where
  c : F
  alpha : F
  num_partitions : Nat
  num_threads : Nat
  seed : Nat
  ram : Nat
  tmp_dir : String
  num_buckets : Nat
  minimal_output : Bool
  verbose_output : Bool

namespace accessors

/- The `gettersetter(name)` macro of cpp-utils.hpp lines 12-30 expands,
for each field name, to `get_name(obj) { return obj.name; }` and
`set_name(obj, value) { obj->name = value; }`.  Mutation through the
`unique_ptr` is modelled as a functional record update. -/

variable {F : Type}

def get_c (obj : build_configuration F) : F := obj.c
def set_c (obj : build_configuration F) (value : F) : build_configuration F :=
  { obj with c := value }

def get_alpha (obj : build_configuration F) : F := obj.alpha
def set_alpha (obj : build_configuration F) (value : F) : build_configuration F :=
  { obj with alpha := value }

def get_num_partitions (obj : build_configuration F) : Nat := obj.num_partitions
def set_num_partitions (obj : build_configuration F) (value : Nat) : build_configuration F :=
  { obj with num_partitions := value }

def get_num_threads (obj : build_configuration F) : Nat := obj.num_threads
def set_num_threads (obj : build_configuration F) (value : Nat) : build_configuration F :=
  { obj with num_threads := value }

def get_seed (obj : build_configuration F) : Nat := obj.seed
def set_seed (obj : build_configuration F) (value : Nat) : build_configuration F :=
  { obj with seed := value }

def get_ram (obj : build_configuration F) : Nat := obj.ram
def set_ram (obj : build_configuration F) (value : Nat) : build_configuration F :=
  { obj with ram := value }

def get_tmp_dir (obj : build_configuration F) : String := obj.tmp_dir
def set_tmp_dir (obj : build_configuration F) (value : String) : build_configuration F :=
  { obj with tmp_dir := value }

def get_num_buckets (obj : build_configuration F) : Nat := obj.num_buckets
def set_num_buckets (obj : build_configuration F) (value : Nat) : build_configuration F :=
  { obj with num_buckets := value }

def get_minimal_output (obj : build_configuration F) : Bool := obj.minimal_output
def set_minimal_output (obj : build_configuration F) (value : Bool) : build_configuration F :=
  { obj with minimal_output := value }

def get_verbose_output (obj : build_configuration F) : Bool := obj.verbose_output
def set_verbose_output (obj : build_configuration F) (value : Bool) : build_configuration F :=
  { obj with verbose_output := value }

/-- C4: every configuration field of §3 is externally settable and
gettable — for every configuration object and every value, calling the
field's setter and then its getter returns that value, for each of the
ten fields. -/
theorem C4_config_set_get_round_trip {F : Type} (cfg : build_configuration F)
    (vc va : F) (vnp vnt vs vram vnb : Nat) (vtd : String) (vmo vvo : Bool) :
    get_c (set_c cfg vc) = vc
    ∧ get_alpha (set_alpha cfg va) = va
    ∧ get_num_partitions (set_num_partitions cfg vnp) = vnp
    ∧ get_num_threads (set_num_threads cfg vnt) = vnt
    ∧ get_seed (set_seed cfg vs) = vs
    ∧ get_ram (set_ram cfg vram) = vram
    ∧ get_tmp_dir (set_tmp_dir cfg vtd) = vtd
    ∧ get_num_buckets (set_num_buckets cfg vnb) = vnb
    ∧ get_minimal_output (set_minimal_output cfg vmo) = vmo
    ∧ get_verbose_output (set_verbose_output cfg vvo) = vvo :=
  ⟨rfl, rfl, rfl, rfl, rfl, rfl, rfl, rfl, rfl, rfl⟩

end accessors

namespace utils

/-- Modelled from the spec: `pthash::constants::invalid_seed`, the single
reserved sentinel marking `seed = auto` (§3 `seed: uint64|auto`).  The
constant is defined in the external pthash library, not under `src/`; it
is the all-ones `uint64_t` value. -/
def invalid_seed : Nat := 2 ^ 64 - 1

/-- `valid_seed` (cpp-utils.hpp lines 83-86): a seed is valid when it
differs from `pthash::constants::invalid_seed`. -/
def valid_seed (seed : Nat) : Bool := seed != invalid_seed

/-- C10: `valid_seed s` is true exactly when `s` differs from the
reserved sentinel `invalid_seed`, and exactly one seed value of the
uint64 domain is rejected as invalid (the auto marker). -/
theorem C10_valid_seed_iff_not_sentinel :
    (∀ s : Nat, valid_seed s = true ↔ s ≠ invalid_seed)
    ∧ (Finset.range (2 ^ 64)).filter (fun s => valid_seed s = false) = {invalid_seed} := by
  constructor
  · intro s
    simp [valid_seed]
  · ext s
    simp only [Finset.mem_filter, Finset.mem_range, Finset.mem_singleton, valid_seed,
      bne_eq_false_iff_eq]
    constructor
    · exact fun h => h.2
    · rintro rfl
      exact ⟨by simp [invalid_seed], rfl⟩

end utils

namespace concrete

/-- The closed set of encoder variants of the spec (§2 item 4, §9):
dictionary-based, Elias-Fano monotone, and partition-aware compact. -/
inductive Encoder where
  | dictionary_dictionary
  | elias_fano
  | partitioned_compact
deriving DecidableEq, Repr

/-- The hash width of a mock hasher (`mock_hasher64.hash_type = hash64`,
`mock_hasher128.hash_type = hash128`, concrete.hpp lines 14-19). -/
inductive Hasher where
  | hash64
  | hash128
deriving DecidableEq, Repr

/-- A concrete PHF function type exposed by concrete.hpp: the template
arguments of `pthash::single_phf` / `pthash::partitioned_phf` — hasher,
encoder, and the `Minimal` flag — plus whether it is the partitioned
variant. -/
structure PhfFunctionType where
  partitioned : Bool
  hasher : Hasher
  encoder : Encoder
  minimal : Bool
deriving DecidableEq, Repr

/-- `singlephf_64_dictionary_minimal` (concrete.hpp lines 27-32):
`pthash::single_phf<mock_hasher64, pthash::dictionary_dictionary, true>`. -/
def singlephf_64_dictionary_minimal : PhfFunctionType :=
  ⟨false, .hash64, .dictionary_dictionary, true⟩

/-- `singlephf_128_dictionary_minimal` (concrete.hpp lines 34-39):
`pthash::single_phf<mock_hasher128, pthash::dictionary_dictionary, true>`. -/
def singlephf_128_dictionary_minimal : PhfFunctionType :=
  ⟨false, .hash128, .dictionary_dictionary, true⟩

/-- `partitionedphf_64_dictionary_minimal` (concrete.hpp lines 47-52):
`pthash::partitioned_phf<mock_hasher64, pthash::dictionary_dictionary, true>`. -/
def partitionedphf_64_dictionary_minimal : PhfFunctionType :=
  ⟨true, .hash64, .dictionary_dictionary, true⟩

/-- `partitionedphf_128_dictionary_minimal` (concrete.hpp lines 54-59):
`pthash::partitioned_phf<mock_hasher128, pthash::dictionary_dictionary, true>`. -/
def partitionedphf_128_dictionary_minimal : PhfFunctionType :=
  ⟨true, .hash128, .dictionary_dictionary, true⟩

/-- All function types the build surface of concrete.hpp exposes (the
builder typedefs carry no encoder argument and are not function types). -/
def concreteFunctionTypes : List PhfFunctionType :=
  [singlephf_64_dictionary_minimal, singlephf_128_dictionary_minimal,
   partitionedphf_64_dictionary_minimal, partitionedphf_128_dictionary_minimal]

/-- Counterexample to C6 as stated: no exposed function type uses the
Elias-Fano encoder, so the build surface does not expose a function type
for each of the three encoder variants. -/
theorem C6_counterexample_no_elias_fano_type :
    ¬ ∃ t ∈ concreteFunctionTypes, t.encoder = Encoder.elias_fano := by
  decide

/-- C6 (amended): the encoder slot of the exposed build surface is fixed
rather than varied — every one of the four exposed concrete function
types (single/partitioned × 64/128-bit hashing, all minimal) uses the
dictionary-based encoder `dictionary_dictionary`; no exposed function
type uses the Elias-Fano or partition-aware compact variants. -/
theorem C6_all_exposed_types_use_dictionary :
    concreteFunctionTypes.length = 4
    ∧ concreteFunctionTypes.all
        (fun t => t.encoder == Encoder.dictionary_dictionary) = true := by
  decide

end concrete

namespace PhfModel

/-!
Modelled from the spec: the PTHash construction core (HashProvider §4.1,
BucketMapper §4.2, PilotSearch §4.3, QueryEngine §4.6, retry loop §4.3.3
and §9, serialized layout §6).  The implementation of these components is
the external `pthash.hpp` library; `src/concrete.hpp` only instantiates
it, so the model below follows the specification's words.
-/

/-- Modelled from the spec: the error taxonomy of §7 that construction
can surface (`InvalidInput` before search begins, `ConstructionError` on
search exhaustion). -/
inductive BuildError where
  | InvalidInput
  | ConstructionError
deriving DecidableEq, Repr

/-- Modelled from the spec: the seed-indexed pure hash provider of §4.1
(two independent hash values per key, deterministic for a fixed seed) and
the displacement formula `displace(h2, p)` of §4.3/§4.6. -/
structure HashParams (K : Type) where
  hash1 : Nat → K → Nat
  hash2 : Nat → K → Nat
  displace : Nat → Nat → Nat

variable {K : Type} (hp : HashParams K)

/-- Modelled from the spec: the BucketMapper of §4.2 — a total pure
function of `(h1, seed)` with `bucket_id ∈ [0, num_buckets)`. -/
def bucketOf (numBuckets seed : Nat) (k : K) : Nat :=
  hp.hash1 seed k % numBuckets

/-- Modelled from the spec: the slot formula of §4.3/§4.6,
`slot(k) = displace(h2(k), p) mod effective_table_size`. -/
def slotOf (tableSize seed p : Nat) (k : K) : Nat :=
  hp.displace (hp.hash2 seed k) p % tableSize

/-- The slots a whole bucket of keys would take under pilot `p`. -/
def slotsFor (tableSize seed p : Nat) (ks : List K) : List Nat :=
  ks.map (slotOf hp tableSize seed p)

/-- Modelled from the spec: §4.3 step 2 — a pilot is acceptable for a
bucket when an offset-free assignment exists for all its keys
simultaneously: the keys' slots are pairwise distinct and none is already
occupied by a previously placed key. -/
def goodPilot (tableSize seed : Nat) (occupied : List Nat) (ks : List K) (p : Nat) : Bool :=
  decide (slotsFor hp tableSize seed p ks).Nodup
    && (slotsFor hp tableSize seed p ks).all (fun s => decide (s ∉ occupied))

/-- Modelled from the spec: §4.3 step 2 — linearly probe
`p = 0, 1, 2, …` up to the bounded probe budget (implementation-defined
ceiling, §4.3 step 3) and return the smallest acceptable pilot, if any. -/
def findPilot (budget tableSize seed : Nat) (occupied : List Nat) (ks : List K) : Option Nat :=
  (List.range (budget + 1)).find? (goodPilot hp tableSize seed occupied ks)

/-- One PilotSearch step: place one bucket `(id, keys)` — on success
record its pilot and mark its slots occupied, otherwise the whole attempt
is discarded (§4.3 step 3).  The state is the pilot assignment so far and
the occupied-slot list in placement order. -/
def searchStep (budget tableSize seed : Nat) (st : (Nat → Nat) × List Nat)
    (b : Nat × List K) : Except BuildError ((Nat → Nat) × List Nat) :=
  match findPilot hp budget tableSize seed st.2 b.2 with
  | none => .error .ConstructionError
  | some p => .ok (fun x => if x = b.1 then p else st.1 x,
                   st.2 ++ slotsFor hp tableSize seed p b.2)

/-- Modelled from the spec: §4.3 — PilotSearch processes the buckets
sequentially (later buckets depend on the occupancy state of earlier
ones, §5), placing each bucket in turn. -/
def search (budget tableSize seed : Nat) :
    List (Nat × List K) → (Nat → Nat) × List Nat → Except BuildError ((Nat → Nat) × List Nat)
  | [], st => .ok st
  | b :: bs, st =>
    match searchStep hp budget tableSize seed st b with
    | .error e => .error e
    | .ok st' => search budget tableSize seed bs st'

/-- Modelled from the spec: §3 Bucket — group the keys by their bucket
id; bucket `b` owns exactly the keys the BucketMapper assigns to `b`. -/
def bucketsOf (numBuckets seed : Nat) (keys : List K) : List (Nat × List K) :=
  (List.range numBuckets).map
    (fun b => (b, keys.filter (fun k => bucketOf hp numBuckets seed k == b)))

/-- Insert a bucket into a size-sorted bucket list, keeping larger
buckets first. -/
def insertBySize (b : Nat × List K) : List (Nat × List K) → List (Nat × List K)
  | [] => [b]
  | c :: cs => if c.2.length ≤ b.2.length then b :: c :: cs else c :: insertBySize b cs

/-- Modelled from the spec: §4.3 step 1 — sort the buckets by descending
key count (largest first); insertion sort, so that the definition
computes by structural recursion. -/
def sortBySizeDesc : List (Nat × List K) → List (Nat × List K)
  | [] => []
  | b :: bs => insertBySize b (sortBySizeDesc bs)

/-- Modelled from the spec: §3 EncodedFunction — the persisted state of a
built single function: top-level seed first (§3 lifecycle, §6), the
bucket/table geometry, the pilot table (§3 PilotTable, stored here as the
decoded pilot sequence, the encoders being lossless by §4.4), and the
occupied slots in placement order, from which the minimal free-slot
remapping of §4.3 step 4 is derived. -/
structure Func where
  seed : Nat
  numBuckets : Nat
  tableSize : Nat
  pilotTable : List Nat
  occupied : List Nat
deriving DecidableEq, Repr

/-- Modelled from the spec: §4.3 step 4 — the minimal remapping compacts
the unoccupied slots away: an occupied slot `s` is sent to the number of
occupied slots strictly below it, making the final codomain exactly
`[0, n)`. -/
def rank (l : List Nat) (s : Nat) : Nat :=
  l.countP (fun x => decide (x < s))

/-- Modelled from the spec: §4.6 QueryEngine, non-partitioned, minimal —
recompute the hashes, resolve bucket → pilot → slot, then remap through
the free-slot compaction. -/
def query (f : Func) (k : K) : Nat :=
  rank f.occupied
    (slotOf hp f.tableSize f.seed
      (f.pilotTable.getD (bucketOf hp f.numBuckets f.seed k) 0) k)

/-- Modelled from the spec: one construction attempt for a fixed seed
(§4.3): validate the input (§7 InvalidInput: duplicate keys, empty key
set, out-of-range configuration — detected before search begins), bucket
the keys, sort by descending size, run PilotSearch, and assemble the
function. -/
def buildAttempt [DecidableEq K] (numBuckets tableSize budget seed : Nat)
    (keys : List K) : Except BuildError Func :=
  if keys = [] ∨ ¬ keys.Nodup ∨ numBuckets = 0 ∨ tableSize = 0 then
    .error .InvalidInput
  else
    match search hp budget tableSize seed
        (sortBySizeDesc (bucketsOf hp numBuckets seed keys)) (fun _ => 0, []) with
    | .error e => .error e
    | .ok (pm, occ) =>
      .ok ⟨seed, numBuckets, tableSize, (List.range numBuckets).map pm, occ⟩

/-- Modelled from the spec: the retry loop of §4.3 step 3 and §9 — on a
failed attempt a new seed is drawn (deterministically from the previous
one) and the attempt repeats, up to a configurable ceiling, surfacing
`ConstructionError` on exhaustion; `InvalidInput` is reported
immediately and never retried (§7). -/
def buildRetry [DecidableEq K] (numBuckets tableSize budget : Nat)
    (nextSeed : Nat → Nat) (keys : List K) :
    Nat → Nat → Except BuildError Func
  | 0, _ => .error .ConstructionError
  | attempts + 1, seed =>
    match buildAttempt hp numBuckets tableSize budget seed keys with
    | .ok f => .ok f
    | .error .InvalidInput => .error .InvalidInput
    | .error .ConstructionError =>
      buildRetry numBuckets tableSize budget nextSeed keys attempts (nextSeed seed)

/-- Modelled from the spec: the serialized layout of §6 — seed first,
then key count, bucket count, the encoding payload and the free-slot
remap payload. -/
def encodeFn (f : Func) : List Nat :=
  f.seed :: f.occupied.length :: f.numBuckets :: (f.pilotTable ++ f.occupied)

/-- A pilot returned by `findPilot` satisfies `goodPilot`. -/
theorem findPilot_good {budget tableSize seed : Nat} {occ : List Nat} {ks : List K} {p : Nat}
    (h : findPilot hp budget tableSize seed occ ks = some p) :
    goodPilot hp tableSize seed occ ks p = true :=
  List.find?_some h

/-- What `goodPilot` guarantees: the bucket's slots are pairwise distinct
and avoid every already-occupied slot. -/
theorem goodPilot_spec {tableSize seed : Nat} {occ : List Nat} {ks : List K} {p : Nat}
    (h : goodPilot hp tableSize seed occ ks p = true) :
    (slotsFor hp tableSize seed p ks).Nodup
    ∧ ∀ s ∈ slotsFor hp tableSize seed p ks, s ∉ occ := by
  simp only [goodPilot, Bool.and_eq_true, decide_eq_true_eq, List.all_eq_true] at h
  exact h

/-- Decomposition of a successful `search` run: the final occupied list
is the initial one followed by each processed bucket's slots (under the
pilot finally assigned to it), in processing order; and the pilots of
buckets not processed are untouched. -/
theorem search_spec (budget tableSize seed : Nat) (bs : List (Nat × List K)) :
    ∀ (pm0 : Nat → Nat) (occ0 : List Nat) (pm : Nat → Nat) (occ : List Nat),
      (bs.map Prod.fst).Nodup →
      search hp budget tableSize seed bs (pm0, occ0) = .ok (pm, occ) →
      occ = occ0 ++ (bs.map (fun b => slotsFor hp tableSize seed (pm b.1) b.2)).flatten
      ∧ ∀ id, id ∉ bs.map Prod.fst → pm id = pm0 id := by
  induction bs with
  | nil =>
    intro pm0 occ0 pm occ _ h
    simp only [search] at h
    injection h with h
    obtain ⟨h1, h2⟩ := Prod.mk.injEq .. ▸ h
    subst h1 h2
    exact ⟨by simp, fun _ _ => rfl⟩
  | cons b bs ih =>
    intro pm0 occ0 pm occ hnd h
    rw [List.map_cons, List.nodup_cons] at hnd
    simp only [search, searchStep] at h
    cases hfp : findPilot hp budget tableSize seed occ0 b.2 with
    | none => rw [hfp] at h; simp at h
    | some p =>
      rw [hfp] at h
      simp only at h
      obtain ⟨hocc, hpm⟩ := ih _ _ pm occ hnd.2 h
      have hpmb : pm b.1 = p := by
        rw [hpm b.1 hnd.1]
        simp
      refine ⟨?_, fun id hid => ?_⟩
      · rw [hocc, List.map_cons, List.flatten_cons, hpmb]
        simp [List.append_assoc]
      · rw [List.map_cons, List.mem_cons] at hid
        push_neg at hid
        rw [hpm id hid.2]
        simp [hid.1]

/-- A successful `search` run keeps the occupied-slot list duplicate
free. -/
theorem search_nodup (budget tableSize seed : Nat) (bs : List (Nat × List K)) :
    ∀ (pm0 : Nat → Nat) (occ0 : List Nat) (pm : Nat → Nat) (occ : List Nat),
      occ0.Nodup →
      search hp budget tableSize seed bs (pm0, occ0) = .ok (pm, occ) →
      occ.Nodup := by
  induction bs with
  | nil =>
    intro pm0 occ0 pm occ hnd h
    simp only [search] at h
    injection h with h
    obtain ⟨h1, h2⟩ := Prod.mk.injEq .. ▸ h
    subst h2
    exact hnd
  | cons b bs ih =>
    intro pm0 occ0 pm occ hnd h
    simp only [search, searchStep] at h
    cases hfp : findPilot hp budget tableSize seed occ0 b.2 with
    | none => rw [hfp] at h; simp at h
    | some p =>
      rw [hfp] at h
      simp only at h
      have hg := goodPilot_spec hp (findPilot_good hp hfp)
      exact ih _ _ pm occ
        (List.Nodup.append hnd hg.1 (fun a ha has => hg.2 a has ha)) h

/-- Inserting into the size-sorted list is a permutation. -/
theorem insertBySize_perm (b : Nat × List K) :
    ∀ l : List (Nat × List K), (insertBySize b l).Perm (b :: l)
  | [] => .refl _
  | c :: cs => by
    by_cases h : c.2.length ≤ b.2.length
    · simp [insertBySize, h]
    · simp only [insertBySize, if_neg h]
      exact ((insertBySize_perm b cs).cons c).trans (List.Perm.swap b c cs)

/-- Sorting the buckets by descending size is a permutation. -/
theorem sortBySizeDesc_perm :
    ∀ l : List (Nat × List K), (sortBySizeDesc l).Perm l
  | [] => .refl _
  | b :: bs => (insertBySize_perm b _).trans ((sortBySizeDesc_perm bs).cons b)

/-- The bucket ids produced by `bucketsOf` are `0, …, numBuckets-1`. -/
theorem bucketsOf_map_fst (numBuckets seed : Nat) (keys : List K) :
    (bucketsOf hp numBuckets seed keys).map Prod.fst = List.range numBuckets := by
  simp [bucketsOf, List.map_map, Function.comp_def]

/-- A bucket produced by `bucketsOf` has an in-range id and owns exactly
keys mapped to that id. -/
theorem mem_bucketsOf {numBuckets seed : Nat} {keys : List K} {b : Nat × List K}
    (hb : b ∈ bucketsOf hp numBuckets seed keys) :
    b.1 < numBuckets ∧ ∀ k ∈ b.2, k ∈ keys ∧ bucketOf hp numBuckets seed k = b.1 := by
  simp only [bucketsOf, List.mem_map, List.mem_range] at hb
  obtain ⟨a, ha, rfl⟩ := hb
  refine ⟨ha, fun k hk => ?_⟩
  have hf := List.mem_filter.mp hk
  exact ⟨hf.1, by simpa using hf.2⟩

/-- Reading the materialized pilot table at an in-range bucket id
recovers the pilot assignment. -/
theorem getD_map_range (pm : Nat → Nat) {n b : Nat} (hb : b < n) :
    ((List.range n).map pm).getD b 0 = pm b := by
  rw [List.getD_eq_getElem _ _ (by simpa using hb)]
  simp

/-- Flattening a family of segments after inserting one element at the
front of a single segment permutes to inserting that element in front of
the flattened family. -/
theorem flatten_map_update {α : Type} (k : α) :
    ∀ (bs : List Nat), bs.Nodup → ∀ (f g : Nat → List α) (b0 : Nat), b0 ∈ bs →
      (∀ b ∈ bs, g b = if b = b0 then k :: f b else f b) →
      ((bs.map g).flatten).Perm (k :: (bs.map f).flatten) := by
  intro bs
  induction bs with
  | nil => intro _ f g b0 hb; exact absurd hb (List.not_mem_nil b0)
  | cons b bs ih =>
    intro hnd f g b0 hb hfg
    rw [List.nodup_cons] at hnd
    rw [List.map_cons, List.map_cons, List.flatten_cons, List.flatten_cons]
    rcases List.mem_cons.mp hb with rfl | hb'
    · rw [hfg b0 (List.mem_cons_self ..), if_pos rfl]
      have hmaps : bs.map g = bs.map f := List.map_congr_left (fun x hx => by
        rw [hfg x (List.mem_cons_of_mem _ hx),
          if_neg (fun hc : x = b0 => hnd.1 (hc ▸ hx))])
      rw [hmaps, List.cons_append]
    · have hbne : b ≠ b0 := fun hc => hnd.1 (hc ▸ hb')
      rw [hfg b (List.mem_cons_self ..), if_neg hbne]
      have hperm := ih hnd.2 f g b0 hb'
        (fun x hx => hfg x (List.mem_cons_of_mem _ hx))
      exact ((hperm.append_left (f b)).trans (List.perm_middle))

/-- Modelled fact about §3 Bucket: grouping the keys by bucket id
partitions the key set — flattening the buckets' key lists permutes back
to the original key list, provided every key's bucket id is in range. -/
theorem bucketsOf_flatten_perm (numBuckets seed : Nat) :
    ∀ keys : List K, (∀ k ∈ keys, bucketOf hp numBuckets seed k < numBuckets) →
      (((bucketsOf hp numBuckets seed keys).map Prod.snd).flatten).Perm keys := by
  intro keys
  induction keys with
  | nil =>
    intro _
    have hmaps : (bucketsOf hp numBuckets seed ([] : List K)).map Prod.snd
        = (List.range numBuckets).map (fun _ => ([] : List K)) := by
      simp [bucketsOf, List.map_map, Function.comp_def]
    rw [hmaps]
    have : ∀ n : Nat, (((List.range n).map (fun _ => ([] : List K))).flatten) = [] := by
      intro n
      induction n with
      | zero => rfl
      | succ m ihm => rw [List.range_succ]; simp [ihm]
    rw [this]
  | cons k ks ih =>
    intro hB
    have hmem : bucketOf hp numBuckets seed k ∈ List.range numBuckets :=
      List.mem_range.mpr (hB k (List.mem_cons_self ..))
    have hmapg : (bucketsOf hp numBuckets seed (k :: ks)).map Prod.snd
        = (List.range numBuckets).map
            (fun b => (k :: ks).filter (fun x => bucketOf hp numBuckets seed x == b)) := by
      simp [bucketsOf, List.map_map, Function.comp_def]
    have hmapf : (bucketsOf hp numBuckets seed ks).map Prod.snd
        = (List.range numBuckets).map
            (fun b => ks.filter (fun x => bucketOf hp numBuckets seed x == b)) := by
      simp [bucketsOf, List.map_map, Function.comp_def]
    rw [hmapg]
    have hstep := flatten_map_update k (List.range numBuckets) (List.nodup_range _)
      (fun b => ks.filter (fun x => bucketOf hp numBuckets seed x == b))
      (fun b => (k :: ks).filter (fun x => bucketOf hp numBuckets seed x == b))
      (bucketOf hp numBuckets seed k) hmem
      (fun b _ => by
        simp only [List.filter_cons]
        by_cases hc : bucketOf hp numBuckets seed k = b
        · rw [if_pos (by simpa using hc), if_pos hc.symm]
        · rw [if_neg (by simpa using hc), if_neg (fun hc2 => hc hc2.symm)])
    refine hstep.trans ?_
    have ihperm := ih (fun x hx => hB x (List.mem_cons_of_mem _ hx))
    rw [hmapf] at ihperm
    exact ihperm.cons k

/-- The free-slot compaction sends an occupied slot strictly below the
number of occupied slots. -/
theorem rank_lt_length {l : List Nat} {s : Nat} (hs : s ∈ l) : rank l s < l.length := by
  have hsplit := List.length_eq_countP_add_countP (fun x => decide (x < s)) (l := l)
  have hpos : 0 < l.countP fun a => decide ¬(decide (a < s)) = true :=
    List.countP_pos_iff.mpr ⟨s, hs, by simp⟩
  rw [rank]
  omega

/-- The free-slot compaction is strictly monotone on occupied slots. -/
theorem rank_lt_rank {l : List Nat} {s t : Nat} (hs : s ∈ l) (hst : s < t) :
    rank l s < rank l t := by
  have hsub : (l.filter (fun x => decide (x < s))).Sublist
      (l.filter (fun x => decide (x < t))) :=
    List.monotone_filter_right l (fun a ha => by
      simp only [decide_eq_true_eq] at ha ⊢
      omega)
  rw [rank, rank, List.countP_eq_length_filter, List.countP_eq_length_filter]
  rcases Nat.lt_or_ge (l.filter (fun x => decide (x < s))).length
      (l.filter (fun x => decide (x < t))).length with h | h
  · exact h
  · exfalso
    have heq := hsub.eq_of_length (Nat.le_antisymm hsub.length_le h)
    have hmem : s ∈ l.filter (fun x => decide (x < t)) :=
      List.mem_filter.mpr ⟨hs, by simpa using hst⟩
    rw [← heq] at hmem
    simpa using (List.mem_filter.mp hmem).2

/-- The free-slot compaction is injective on occupied slots. -/
theorem rank_ne {l : List Nat} {s t : Nat} (hs : s ∈ l) (ht : t ∈ l) (hst : s ≠ t) :
    rank l s ≠ rank l t := by
  rcases Nat.lt_or_ge s t with h | h
  · exact Nat.ne_of_lt (rank_lt_rank hs h)
  · exact (Nat.ne_of_lt (rank_lt_rank ht (Nat.lt_of_le_of_ne h (Ne.symm hst)))).symm

/-- Core bijectivity of one successful construction attempt: querying the
input keys through the assembled minimal function yields pairwise
distinct values below the key count. -/
theorem buildAttempt_bijective [DecidableEq K]
    {numBuckets tableSize budget seed : Nat} {keys : List K} {f : Func}
    (h : buildAttempt hp numBuckets tableSize budget seed keys = .ok f) :
    (keys.map (query hp f)).Nodup
    ∧ ∀ v ∈ keys.map (query hp f), v < keys.length := by
  rw [buildAttempt] at h
  split at h
  · simp at h
  next hvalid =>
    push_neg at hvalid
    obtain ⟨-, -, hnb, -⟩ := hvalid
    cases hsearch : search hp budget tableSize seed
        (sortBySizeDesc (bucketsOf hp numBuckets seed keys)) (fun _ => 0, []) with
    | error e => rw [hsearch] at h; simp at h
    | ok st =>
      obtain ⟨pm, occ⟩ := st
      rw [hsearch] at h
      simp only at h
      injection h with h
      subst h
      have hBperm := sortBySizeDesc_perm (K := K) (bucketsOf hp numBuckets seed keys)
      have hndids :
          ((sortBySizeDesc (bucketsOf hp numBuckets seed keys)).map Prod.fst).Nodup := by
        have hmp := hBperm.map Prod.fst
        rw [bucketsOf_map_fst] at hmp
        exact hmp.nodup_iff.mpr (List.nodup_range _)
      obtain ⟨hoccEq, -⟩ :=
        search_spec hp budget tableSize seed _ _ _ pm occ hndids hsearch
      rw [List.nil_append] at hoccEq
      have hoccNodup : occ.Nodup :=
        search_nodup hp budget tableSize seed _ _ _ pm occ List.nodup_nil hsearch
      have hB : ∀ k ∈ keys, bucketOf hp numBuckets seed k < numBuckets :=
        fun k _ => Nat.mod_lt _ (Nat.pos_of_ne_zero hnb)
      have hbucketprops : ∀ b ∈ sortBySizeDesc (bucketsOf hp numBuckets seed keys),
          b.1 < numBuckets ∧ ∀ k ∈ b.2, k ∈ keys ∧ bucketOf hp numBuckets seed k = b.1 :=
        fun b hb => mem_bucketsOf hp (hBperm.mem_iff.mp hb)
      have hflat :
          ((((sortBySizeDesc (bucketsOf hp numBuckets seed keys)).map Prod.snd)).flatten).Perm
            keys :=
        ((hBperm.map Prod.snd).flatten).trans
          (bucketsOf_flatten_perm hp numBuckets seed keys hB)
      have hquery : ∀ b ∈ sortBySizeDesc (bucketsOf hp numBuckets seed keys), ∀ k ∈ b.2,
          query hp ⟨seed, numBuckets, tableSize, (List.range numBuckets).map pm, occ⟩ k
            = rank occ (slotOf hp tableSize seed (pm b.1) k) := by
        intro b hb k hk
        obtain ⟨hb1, hkk⟩ := hbucketprops b hb
        obtain ⟨-, hbk⟩ := hkk k hk
        simp only [query]
        rw [hbk, getD_map_range pm hb1]
      have hmapeq :
          ((((sortBySizeDesc (bucketsOf hp numBuckets seed keys)).map Prod.snd)).flatten).map
              (query hp ⟨seed, numBuckets, tableSize, (List.range numBuckets).map pm, occ⟩)
            = occ.map (rank occ) := by
        rw [List.map_flatten, List.map_map]
        have hcongr :
            (sortBySizeDesc (bucketsOf hp numBuckets seed keys)).map
                (List.map (query hp
                    ⟨seed, numBuckets, tableSize, (List.range numBuckets).map pm, occ⟩)
                  ∘ Prod.snd)
              = (sortBySizeDesc (bucketsOf hp numBuckets seed keys)).map
                  (fun b => (slotsFor hp tableSize seed (pm b.1) b.2).map (rank occ)) :=
          List.map_congr_left (fun b hb => by
            simp only [Function.comp_def, slotsFor, List.map_map]
            exact List.map_congr_left (fun k hk => hquery b hb k hk))
        rw [hcongr]
        have hpush :
            (sortBySizeDesc (bucketsOf hp numBuckets seed keys)).map
                (fun b => (slotsFor hp tableSize seed (pm b.1) b.2).map (rank occ))
              = ((sortBySizeDesc (bucketsOf hp numBuckets seed keys)).map
                  (fun b => slotsFor hp tableSize seed (pm b.1) b.2)).map
                  (List.map (rank occ)) := by
          rw [List.map_map]
          rfl
        rw [hpush, ← List.map_flatten, ← hoccEq]
      have hkeysmap :
          (keys.map (query hp
              ⟨seed, numBuckets, tableSize, (List.range numBuckets).map pm, occ⟩)).Perm
            (occ.map (rank occ)) := by
        have hstep := hflat.map (query hp
          ⟨seed, numBuckets, tableSize, (List.range numBuckets).map pm, occ⟩)
        rw [hmapeq] at hstep
        exact hstep.symm
      have hlen : occ.length = keys.length := by
        have h1 := hkeysmap.length_eq
        simpa using h1.symm
      constructor
      · exact hkeysmap.nodup_iff.mpr (List.Nodup.map_on
          (fun x hx y hy hxy => by_contra fun hne => rank_ne hx hy hne hxy) hoccNodup)
      · intro v hv
        have hv2 := hkeysmap.mem_iff.mp hv
        obtain ⟨s, hs, rfl⟩ := List.mem_map.mp hv2
        rw [← hlen]
        exact rank_lt_length hs

/-- A successful retried build came from some successful single
attempt. -/
theorem buildRetry_ok [DecidableEq K] {numBuckets tableSize budget : Nat}
    {nextSeed : Nat → Nat} {keys : List K} {f : Func} :
    ∀ {attempts seed : Nat},
      buildRetry hp numBuckets tableSize budget nextSeed keys attempts seed = .ok f →
      ∃ s, buildAttempt hp numBuckets tableSize budget s keys = .ok f := by
  intro attempts
  induction attempts with
  | zero => intro seed h; simp [buildRetry] at h
  | succ n ih =>
    intro seed h
    simp only [buildRetry] at h
    cases hA : buildAttempt hp numBuckets tableSize budget seed keys with
    | ok g =>
      rw [hA] at h
      simp only at h
      injection h with h
      exact ⟨seed, h ▸ hA⟩
    | error e =>
      cases e with
      | InvalidInput => rw [hA] at h; simp at h
      | ConstructionError => rw [hA] at h; simp only at h; exact ih h

/-- C7: bijectivity — for any KeySet of `n` distinct keys over which
construction succeeds, querying each of the `n` keys through the built
minimal function yields a value in `[0, n)`, and the `n` results are
pairwise distinct — exactly the set `{0, …, n-1}`. -/
theorem C7_query_bijective [DecidableEq K] (hp : HashParams K)
    (numBuckets tableSize budget : Nat) (nextSeed : Nat → Nat) (keys : List K)
    (attempts seed : Nat) (f : Func)
    (h : buildRetry hp numBuckets tableSize budget nextSeed keys attempts seed = .ok f) :
    (∀ v ∈ keys.map (query hp f), v < keys.length)
    ∧ (keys.map (query hp f)).Nodup
    ∧ (keys.map (query hp f)).toFinset = Finset.range keys.length := by
  obtain ⟨s, hA⟩ := buildRetry_ok hp h
  obtain ⟨hnd, hlt⟩ := buildAttempt_bijective hp hA
  refine ⟨hlt, hnd, ?_⟩
  apply Finset.eq_of_subset_of_card_le
  · intro v hv
    rw [List.mem_toFinset] at hv
    exact Finset.mem_range.mpr (hlt v hv)
  · rw [Finset.card_range, List.toFinset_card_of_nodup hnd, List.length_map]

/-- A concrete hash family over `Nat` keys, used to evaluate the model
at witness inputs. -/
def hpW : HashParams Nat :=
  ⟨fun s k => k + s, fun s k => k + s, fun h p => h + p⟩

/-- The function the model builds at the witness input
(`numBuckets = 2`, `tableSize = 4`, `budget = 8`, 3 attempts from seed 5,
keys `[0, 1, 2]`). -/
def fW : Func := ⟨5, 2, 4, [0, 0], [1, 3, 2]⟩

/-- Witness for C7 at a concrete successful build over three keys. -/
theorem C7_query_bijective_witness :
    (∀ v ∈ ([0, 1, 2] : List Nat).map (query hpW fW), v < 3)
    ∧ (([0, 1, 2] : List Nat).map (query hpW fW)).Nodup
    ∧ (([0, 1, 2] : List Nat).map (query hpW fW)).toFinset = Finset.range 3 :=
  C7_query_bijective hpW 2 4 8 (fun s => s + 1) [0, 1, 2] 3 5 fW rfl

/-- C8: determinism — two builds with identical KeySet, identical
configuration (bucket count, table size, probe budget, retry policy and
ceiling) and the same explicit seed produce identical encoded bytes, and
the two resulting functions return identical slots for every queried
key. -/
theorem C8_build_determinism [DecidableEq K] (hp : HashParams K)
    (numBuckets1 tableSize1 budget1 : Nat) (nextSeed1 : Nat → Nat)
    (numBuckets2 tableSize2 budget2 : Nat) (nextSeed2 : Nat → Nat)
    (keys1 keys2 : List K) (attempts1 attempts2 seed1 seed2 : Nat)
    (hk : keys1 = keys2)
    (hcfg : numBuckets1 = numBuckets2 ∧ tableSize1 = tableSize2 ∧ budget1 = budget2
        ∧ nextSeed1 = nextSeed2 ∧ attempts1 = attempts2)
    (hs : seed1 = seed2) :
    Except.map encodeFn
        (buildRetry hp numBuckets1 tableSize1 budget1 nextSeed1 keys1 attempts1 seed1)
      = Except.map encodeFn
        (buildRetry hp numBuckets2 tableSize2 budget2 nextSeed2 keys2 attempts2 seed2)
    ∧ ∀ f1 f2 : Func,
        buildRetry hp numBuckets1 tableSize1 budget1 nextSeed1 keys1 attempts1 seed1 = .ok f1 →
        buildRetry hp numBuckets2 tableSize2 budget2 nextSeed2 keys2 attempts2 seed2 = .ok f2 →
        ∀ k : K, query hp f1 k = query hp f2 k := by
  obtain ⟨h1, h2, h3, h4, h5⟩ := hcfg
  subst hk h1 h2 h3 h4 h5 hs
  refine ⟨rfl, fun f1 f2 hf1 hf2 k => ?_⟩
  rw [hf1] at hf2
  injection hf2 with hf
  rw [hf]

/-- Witness for C8 at a concrete input: the two runs take literally equal
key sets, configurations and seeds. -/
theorem C8_build_determinism_witness :
    Except.map encodeFn (buildRetry hpW 2 4 8 (fun s => s + 1) [0, 1, 2] 3 5)
      = Except.map encodeFn (buildRetry hpW 2 4 8 (fun s => s + 1) [0, 1, 2] 3 5)
    ∧ ∀ f1 f2 : Func,
        buildRetry hpW 2 4 8 (fun s => s + 1) [0, 1, 2] 3 5 = .ok f1 →
        buildRetry hpW 2 4 8 (fun s => s + 1) [0, 1, 2] 3 5 = .ok f2 →
        ∀ k : Nat, query hpW f1 k = query hpW f2 k :=
  C8_build_determinism hpW 2 4 8 (fun s => s + 1) 2 4 8 (fun s => s + 1)
    [0, 1, 2] [0, 1, 2] 3 3 5 5 rfl ⟨rfl, rfl, rfl, rfl, rfl⟩ rfl

end PhfModel

end PthashRs
